import Mathlib

/-!
Verification of the proto-generation pipeline in `_genproto.py`.

The script has three stages:
1. a line filter over `rpc.proto` (drop marker lines, drop a 4-line HTTP
   option block, rewrite two import paths),
2. an external `protoc` invocation,
3. a sed-like anchored import rewrite over the generated Python files.

Lines are modelled as `List Char`; sequences of lines as `List (List Char)`.
Python's `str.replace` is modelled by `replaceFuel`/`replaceL` (left-to-right,
non-overlapping replacement of every occurrence); the fuel argument only makes
the recursion structural, `fuel = s.length` always suffices because each step
consumes at least one character of the scanned list.
The external effects of the script (module import check, subprocess exit code,
existence of the generated files) are modelled by an explicit environment
record `Env`, and the observable behaviour of `main` by `runMain`.
-/

/-- Marker for the unsupported gogoproto extension (source: `"gogoproto" in line`). -/
def gogoMark : List Char := "gogoproto".toList

/-- Marker for the cross-file annotation import
(source: `"google/api/annotations.proto" in line`). -/
def annoMark : List Char := "google/api/annotations.proto".toList

/-- Trigger for the HTTP-binding option block
(source: `"option (google.api.http)" in line`). -/
def httpMark : List Char := "option (google.api.http)".toList

/-- Old kv import path (source: first argument of the first `line.replace`). -/
def kvOld : List Char := "etcd/mvcc/mvccpb/kv.proto".toList

/-- New kv import path (source: second argument of the first `line.replace`). -/
def kvNew : List Char := "kv.proto".toList

/-- Old auth import path (source: first argument of the second `line.replace`). -/
def authOld : List Char := "etcd/auth/authpb/auth.proto".toList

/-- New auth import path (source: second argument of the second `line.replace`). -/
def authNew : List Char := "auth.proto".toList

/-- Python `s.replace(pat, new)`: scan left to right, on a match emit `new` and
continue after the matched occurrence, otherwise keep the character.  The fuel
argument makes the recursion structural; `fuel = s.length` is enough since every
step consumes at least one character (the patterns used are nonempty). -/
def replaceFuel (pat new : List Char) : Nat → List Char → List Char
  | 0, s => s
  | _ + 1, [] => []
  | fuel + 1, c :: cs =>
    if pat.isPrefixOf (c :: cs) then
      new ++ replaceFuel pat new fuel ((c :: cs).drop pat.length)
    else
      c :: replaceFuel pat new fuel cs

/-- Python `s.replace(pat, new)` for a nonempty pattern. -/
def replaceL (pat new s : List Char) : List Char := replaceFuel pat new s.length s

/-- The two path substitutions applied to a kept line, in source order:
`line.replace("etcd/mvcc/mvccpb/kv.proto", "kv.proto")` then
`line.replace("etcd/auth/authpb/auth.proto", "auth.proto")`. -/
def substPath (line : List Char) : List Char :=
  replaceL authOld authNew (replaceL kvOld kvNew line)

/-- The body of the filtering loop in `main`: the skip counter is a Python int,
decremented while positive; marker lines are dropped; an HTTP-option trigger
line sets the counter to 3; all other lines are emitted after `substPath`. -/
def lineFilterAux : Int → List (List Char) → List (List Char)
  | _, [] => []
  | skip, line :: rest =>
    if 0 < skip then lineFilterAux (skip - 1) rest
    else if gogoMark <:+: line then lineFilterAux skip rest
    else if annoMark <:+: line then lineFilterAux skip rest
    else if httpMark <:+: line then lineFilterAux 3 rest
    else substPath line :: lineFilterAux skip rest

/-- The whole filtering pass (`modified_lines` computed from `lines`),
starting with `skip_lines = 0`. -/
def lineFilter (lines : List (List Char)) : List (List Char) :=
  lineFilterAux 0 lines

/-- Same loop, instrumented to record the 0-based input position of every
emitted line instead of its text.  `a` is the position of the head of the
remaining input. -/
def keptIdxAux : Nat → Int → List (List Char) → List Nat
  | _, _, [] => []
  | a, skip, line :: rest =>
    if 0 < skip then keptIdxAux (a + 1) (skip - 1) rest
    else if gogoMark <:+: line then keptIdxAux (a + 1) skip rest
    else if annoMark <:+: line then keptIdxAux (a + 1) skip rest
    else if httpMark <:+: line then keptIdxAux (a + 1) 3 rest
    else a :: keptIdxAux (a + 1) skip rest

/-- Input positions of the lines kept by one filtering pass. -/
def keptIdx (lines : List (List Char)) : List Nat := keptIdxAux 0 0 lines

/-- One-step transition of the `skip_lines` counter for one consumed line. -/
def stepSkip (skip : Int) (line : List Char) : Int :=
  if 0 < skip then skip - 1
  else if gogoMark <:+: line then skip
  else if annoMark <:+: line then skip
  else if httpMark <:+: line then 3
  else skip

/-- Value of the `skip_lines` counter after consuming a list of lines. -/
def skipAfter : Int → List (List Char) → Int
  | skip, [] => skip
  | skip, line :: rest => skipAfter (stepSkip skip line) rest

/-- Value of the `skip_lines` counter just before line `i` of a pass that
starts at 0. -/
def skipBefore (lines : List (List Char)) (i : Nat) : Int :=
  skipAfter 0 (lines.take i)

/-- A line is kept by the loop iff no skip is active and no marker fires. -/
def keepLine (skip : Int) (line : List Char) : Prop :=
  ¬ 0 < skip ∧ ¬ gogoMark <:+: line ∧ ¬ annoMark <:+: line ∧ ¬ httpMark <:+: line

instance instDecKeepLine (skip : Int) (line : List Char) : Decidable (keepLine skip line) := by
  unfold keepLine
  exact inferInstance

/-- Side conditions under which replacing `pat` by `n` can never manufacture a
new occurrence of the word `p`: `n` does not occur in `p`, `p` does not occur
in `n`, no nonempty prefix of `n` ends `p`, and no nonempty suffix of `n`
starts `p`. -/
def FreshFor (p n : List Char) : Prop :=
  ¬ n <:+: p ∧ ¬ p <:+: n ∧
  (∀ k, k < n.length → ¬ (n.take (k + 1) <:+ p)) ∧
  (∀ k, k < n.length → ¬ (n.drop k <+: p))

instance instDecFreshFor (p n : List Char) : Decidable (FreshFor p n) := by
  unfold FreshFor
  exact inferInstance

/-- `re.sub` with a line-start anchored literal pattern, as performed per line
by `sed_inplace`: rewrite only when the pattern is a prefix of the line. -/
def sedLine (pat repl line : List Char) : List Char :=
  if pat.isPrefixOf line then repl ++ line.drop pat.length else line

/-- Pattern of `sed_inplace(RPC_PB2_FILE, r"^import auth_pb2", ...)`. -/
def importAuthPat : List Char := "import auth_pb2".toList

/-- Replacement of `sed_inplace(RPC_PB2_FILE, r"^import auth_pb2", ...)`. -/
def fromAuthRepl : List Char := "from etcd3.etcdrpc import auth_pb2".toList

/-- Pattern of `sed_inplace(RPC_PB2_FILE, r"^import kv_pb2", ...)`. -/
def importKvPat : List Char := "import kv_pb2".toList

/-- Replacement of `sed_inplace(RPC_PB2_FILE, r"^import kv_pb2", ...)`. -/
def fromKvRepl : List Char := "from etcd3.etcdrpc import kv_pb2".toList

/-- Pattern of `sed_inplace(RPC_PB2_GRPC_FILE, r"^import rpc_pb2", ...)`. -/
def importRpcPat : List Char := "import rpc_pb2".toList

/-- Replacement of `sed_inplace(RPC_PB2_GRPC_FILE, r"^import rpc_pb2", ...)`. -/
def fromRpcRepl : List Char := "from etcd3.etcdrpc import rpc_pb2".toList

/-- The two sed passes applied to `rpc_pb2.py`, in source order
(auth pattern over the whole file, then kv pattern over the whole file). -/
def patchRpcPb2 (lines : List (List Char)) : List (List Char) :=
  (lines.map (sedLine importAuthPat fromAuthRepl)).map (sedLine importKvPat fromKvRepl)

/-- The single sed pass applied to `rpc_pb2_grpc.py`. -/
def patchRpcPb2Grpc (lines : List (List Char)) : List (List Char) :=
  lines.map (sedLine importRpcPat fromRpcRepl)

/-- Environment of one run of `main`: availability of `grpc.tools`, observable
behaviour of the `protoc` subprocess, and the state of the files it touches. -/
structure Env where
  grpcToolsAvailable : Bool
  protocExitCode : Int
  protocStdout : List Char
  protocStderr : List Char
  rpcPb2Exists : Bool
  rpcPb2GrpcExists : Bool
  rpcProtoLines : List (List Char)
  rpcPb2Lines : List (List Char)
  rpcPb2GrpcLines : List (List Char)

/-- Observable outcome of one run of `main`: exit code, diagnostics emitted,
and final contents of the three text artifacts. -/
structure RunResult where
  exitCode : Int
  installMsgPrinted : Bool
  rpcProtoWritten : Bool
  rpcProtoLines : List (List Char)
  protocStdoutEchoed : Bool
  protocStderrEchoed : Bool
  rpcPb2Warned : Bool
  rpcPb2GrpcWarned : Bool
  rpcPb2Lines : List (List Char)
  rpcPb2GrpcLines : List (List Char)

/-- `main` of `_genproto.py` over an explicit environment: missing toolchain
exits 1 before touching anything; then the filter rewrites `rpc.proto`; a
non-zero `protoc` exit echoes both captured streams and exits with that code
before any patching; on success each generated file is patched when present
and a warning is printed when absent. -/
def runMain (env : Env) : RunResult :=
  if env.grpcToolsAvailable then
    if env.protocExitCode ≠ 0 then
      { exitCode := env.protocExitCode
        installMsgPrinted := false
        rpcProtoWritten := true
        rpcProtoLines := lineFilter env.rpcProtoLines
        protocStdoutEchoed := true
        protocStderrEchoed := true
        rpcPb2Warned := false
        rpcPb2GrpcWarned := false
        rpcPb2Lines := env.rpcPb2Lines
        rpcPb2GrpcLines := env.rpcPb2GrpcLines }
    else
      { exitCode := 0
        installMsgPrinted := false
        rpcProtoWritten := true
        rpcProtoLines := lineFilter env.rpcProtoLines
        protocStdoutEchoed := true
        protocStderrEchoed := !env.protocStderr.isEmpty
        rpcPb2Warned := !env.rpcPb2Exists
        rpcPb2GrpcWarned := !env.rpcPb2GrpcExists
        rpcPb2Lines := if env.rpcPb2Exists then patchRpcPb2 env.rpcPb2Lines else env.rpcPb2Lines
        rpcPb2GrpcLines :=
          if env.rpcPb2GrpcExists then patchRpcPb2Grpc env.rpcPb2GrpcLines
          else env.rpcPb2GrpcLines }
  else
    { exitCode := 1
      installMsgPrinted := true
      rpcProtoWritten := false
      rpcProtoLines := env.rpcProtoLines
      protocStdoutEchoed := false
      protocStderrEchoed := false
      rpcPb2Warned := false
      rpcPb2GrpcWarned := false
      rpcPb2Lines := env.rpcPb2Lines
      rpcPb2GrpcLines := env.rpcPb2GrpcLines }

/-- A full HTTP-option trigger line. -/
def httpLine : List Char := "option (google.api.http) = \x7b".toList

/-- Input exercising a trigger inside an active skip block: the trigger at
position 0 consumes positions 1-3, including the second trigger at position 3,
so position 4 is emitted. -/
def nestedTriggerInput : List (List Char) :=
  [httpLine, "  post: \"/v3/kv/range\"".toList, "  body: \"*\"".toList, httpLine, "rpc Range".toList]

/-- A line on which the path substitution is not idempotent: one replacement
leaves behind a fresh occurrence of the old kv path. -/
def overlapLine : List Char := "etcd/mvcc/mvccpb/etcd/mvcc/mvccpb/kv.proto".toList

/-- Environment in which `grpc.tools` cannot be imported. -/
def envNoTool : Env :=
  { grpcToolsAvailable := false
    protocExitCode := 0
    protocStdout := []
    protocStderr := []
    rpcPb2Exists := true
    rpcPb2GrpcExists := true
    rpcProtoLines := ["syntax = \"proto3\";".toList]
    rpcPb2Lines := ["import auth_pb2".toList]
    rpcPb2GrpcLines := ["import rpc_pb2".toList] }

/-- Environment in which `protoc` itself fails with exit code 1. -/
def envGenFail : Env :=
  { grpcToolsAvailable := true
    protocExitCode := 1
    protocStdout := "out".toList
    protocStderr := "err".toList
    rpcPb2Exists := true
    rpcPb2GrpcExists := true
    rpcProtoLines := ["syntax = \"proto3\";".toList]
    rpcPb2Lines := ["import auth_pb2".toList]
    rpcPb2GrpcLines := ["import rpc_pb2".toList] }

/-- Environment of a successful `protoc` run after which the generated
service-stub file `rpc_pb2_grpc.py` is absent. -/
def envNoStub : Env :=
  { grpcToolsAvailable := true
    protocExitCode := 0
    protocStdout := []
    protocStderr := []
    rpcPb2Exists := true
    rpcPb2GrpcExists := false
    rpcProtoLines := ["syntax = \"proto3\";".toList]
    rpcPb2Lines := ["import auth_pb2".toList, "x = 1".toList]
    rpcPb2GrpcLines := ["import rpc_pb2".toList] }

/-- Concrete schema line importing the kv proto by its cross-package path. -/
def impKvIn : List Char := "import \"etcd/mvcc/mvccpb/kv.proto\";".toList

/-- The same line after the path substitution. -/
def impKvOut : List Char := "import \"kv.proto\";".toList

/-- A block-deletion scenario: a trigger line followed by four ordinary lines. -/
def blockInput : List (List Char) :=
  [httpLine, "      post: \"/v3/kv/put\"".toList, "      body: \"*\"".toList,
    "    \x7d;".toList, "  rpc Put".toList]

/-! ## Basic facts about prefixes, suffixes and infixes -/

theorem pre_bool_iff (l1 l2 : List Char) : l1.isPrefixOf l2 = true ↔ l1 <+: l2 :=
  List.isPrefixOf_iff_prefix

theorem inf_of_pre {l1 l2 : List Char} (h : l1 <+: l2) : l1 <:+: l2 := by
  exact List.IsPrefix.isInfix h

theorem inf_of_suf {l1 l2 : List Char} (h : l1 <:+ l2) : l1 <:+: l2 := by
  exact List.IsSuffix.isInfix h

/-! ## Structure of one filtering step -/

theorem lineFilterAux_cons (sk : Int) (line : List Char) (rest : List (List Char)) :
    lineFilterAux sk (line :: rest) =
      (if keepLine sk line then [substPath line] else []) ++
        lineFilterAux (stepSkip sk line) rest := by
  by_cases h1 : 0 < sk <;> by_cases h2 : gogoMark <:+: line <;>
    by_cases h3 : annoMark <:+: line <;> by_cases h4 : httpMark <:+: line <;>
    simp [lineFilterAux, stepSkip, keepLine, h1, h2, h3, h4]

theorem keptIdxAux_cons (a : Nat) (sk : Int) (line : List Char) (rest : List (List Char)) :
    keptIdxAux a sk (line :: rest) =
      (if keepLine sk line then [a] else []) ++
        keptIdxAux (a + 1) (stepSkip sk line) rest := by
  by_cases h1 : 0 < sk <;> by_cases h2 : gogoMark <:+: line <;>
    by_cases h3 : annoMark <:+: line <;> by_cases h4 : httpMark <:+: line <;>
    simp [keptIdxAux, stepSkip, keepLine, h1, h2, h3, h4]

theorem stepSkip_nonneg (sk : Int) (line : List Char) (h : 0 ≤ sk) :
    0 ≤ stepSkip sk line := by
  unfold stepSkip
  split_ifs <;> omega

theorem skipAfter_nonneg (ls : List (List Char)) :
    ∀ sk : Int, 0 ≤ sk → 0 ≤ skipAfter sk ls := by
  induction ls with
  | nil => intro sk h; exact h
  | cons x xs ih => intro sk h; exact ih (stepSkip sk x) (stepSkip_nonneg sk x h)

theorem keptIdxAux_le (ls : List (List Char)) :
    ∀ (a : Nat) (sk : Int) (j : Nat), j ∈ keptIdxAux a sk ls → a ≤ j := by
  induction ls with
  | nil => intro a sk j h; simp [keptIdxAux] at h
  | cons x xs ih =>
    intro a sk j h
    rw [keptIdxAux_cons] at h
    rcases List.mem_append.mp h with h1 | h2
    · by_cases hk : keepLine sk x
      · simp [hk] at h1; omega
      · simp [hk] at h1
    · have := ih (a + 1) (stepSkip sk x) j h2
      omega

theorem keptIdxAux_skip_le (ls : List (List Char)) :
    ∀ (a : Nat) (sk : Int), 0 ≤ sk → ∀ j ∈ keptIdxAux a sk ls, (a : Int) + sk ≤ (j : Int) := by
  induction ls with
  | nil => intro a sk _ j h; simp [keptIdxAux] at h
  | cons x xs ih =>
    intro a sk hsk j hj
    rw [keptIdxAux_cons] at hj
    rcases List.mem_append.mp hj with h1 | h2
    · by_cases hk : keepLine sk x
      · simp [hk] at h1
        have hz : ¬ 0 < sk := hk.1
        omega
      · simp [hk] at h1
    · have hst : 0 ≤ stepSkip sk x := stepSkip_nonneg sk x hsk
      have hrec := ih (a + 1) (stepSkip sk x) hst j h2
      by_cases h1 : 0 < sk
      · have hval : stepSkip sk x = sk - 1 := by simp [stepSkip, h1]
        omega
      · omega

theorem keptIdxAux_lt (ls : List (List Char)) :
    ∀ (a : Nat) (sk : Int), ∀ j ∈ keptIdxAux a sk ls, j < a + ls.length := by
  induction ls with
  | nil => intro a sk j h; simp [keptIdxAux] at h
  | cons x xs ih =>
    intro a sk j hj
    rw [keptIdxAux_cons] at hj
    rcases List.mem_append.mp hj with h1 | h2
    · by_cases hk : keepLine sk x
      · simp [hk] at h1; simp [List.length_cons]; omega
      · simp [hk] at h1
    · have := ih (a + 1) (stepSkip sk x) j h2
      simp [List.length_cons]
      omega

theorem keptIdxAux_append (xs ys : List (List Char)) :
    ∀ (a : Nat) (sk : Int),
      keptIdxAux a sk (xs ++ ys) =
        keptIdxAux a sk xs ++ keptIdxAux (a + xs.length) (skipAfter sk xs) ys := by
  induction xs with
  | nil => intro a sk; simp [keptIdxAux, skipAfter]
  | cons x xs ih =>
    intro a sk
    have hn : a + 1 + xs.length = a + (x :: xs).length := by
      rw [List.length_cons]; omega
    have hsk : skipAfter (stepSkip sk x) xs = skipAfter sk (x :: xs) := rfl
    rw [List.cons_append, keptIdxAux_cons, ih, hn, hsk, keptIdxAux_cons, List.append_assoc]

theorem lineFilterAux_eq_map (ls : List (List Char)) :
    ∀ (a : Nat) (sk : Int),
      lineFilterAux sk ls = (keptIdxAux a sk ls).map (fun j => substPath (ls.getD (j - a) [])) := by
  induction ls with
  | nil => intro a sk; simp [lineFilterAux, keptIdxAux]
  | cons x xs ih =>
    intro a sk
    rw [lineFilterAux_cons, keptIdxAux_cons, List.map_append]
    congr 1
    · by_cases hk : keepLine sk x <;> simp [hk]
    · rw [ih (a + 1)]
      apply List.map_congr_left
      intro j hj
      have hij : a + 1 ≤ j := keptIdxAux_le xs (a + 1) _ j hj
      have hje : j - a = (j - (a + 1)) + 1 := by omega
      rw [hje, List.getD_cons_succ]

/-- The filter output is exactly the kept positions mapped through the
path substitution. -/
theorem lineFilter_eq_map (lines : List (List Char)) :
    lineFilter lines = (keptIdx lines).map (fun j => substPath (lines.getD j [])) := by
  have h := lineFilterAux_eq_map lines 0 0
  simpa [lineFilter, keptIdx] using h

theorem lineFilter_mem (ls : List (List Char)) :
    ∀ (sk : Int) (l : List Char), l ∈ lineFilterAux sk ls →
      ∃ orig ∈ ls, ¬ gogoMark <:+: orig ∧ ¬ annoMark <:+: orig ∧ l = substPath orig := by
  induction ls with
  | nil => intro sk l h; simp [lineFilterAux] at h
  | cons x xs ih =>
    intro sk l h
    rw [lineFilterAux_cons] at h
    rcases List.mem_append.mp h with h1 | h2
    · by_cases hk : keepLine sk x
      · simp [hk] at h1
        exact ⟨x, List.mem_cons_self x xs, hk.2.1, hk.2.2.1, h1⟩
      · simp [hk] at h1
    · obtain ⟨o, ho, hg, ha, he⟩ := ih (stepSkip sk x) l h2
      exact ⟨o, List.mem_cons_of_mem x ho, hg, ha, he⟩

/-! ## Replacement lemmas -/

theorem replaceFuel_id (pat new : List Char) :
    ∀ (fuel : Nat) (s : List Char), ¬ pat <:+: s → replaceFuel pat new fuel s = s := by
  intro fuel
  induction fuel with
  | zero => intro s _; rfl
  | succ f ih =>
    intro s hp
    cases s with
    | nil => rfl
    | cons c cs =>
      have hnp : ¬ pat.isPrefixOf (c :: cs) = true := by
        intro hpre
        exact hp (inf_of_pre ((pre_bool_iff pat (c :: cs)).mp hpre))
      have hcs : ¬ pat <:+: cs := fun h => hp (h.trans (inf_of_suf (List.suffix_cons c cs)))
      simp [replaceFuel, hnp]
      exact ih cs hcs

theorem replaceL_id (pat new s : List Char) (h : ¬ pat <:+: s) : replaceL pat new s = s :=
  replaceFuel_id pat new s.length s h

theorem substPath_id (line : List Char) (h1 : ¬ kvOld <:+: line) (h2 : ¬ authOld <:+: line) :
    substPath line = line := by
  unfold substPath
  rw [replaceL_id kvOld kvNew line h1, replaceL_id authOld authNew line h2]

theorem replaceFuel_pre_inv (p pat n : List Char) (hf : FreshFor p n) :
    ∀ (fuel : Nat) (s q : List Char), q ≠ [] → q <:+ p →
      q <+: replaceFuel pat n fuel s → q <+: s := by
  intro fuel
  induction fuel with
  | zero => intro s q _ _ hq; exact hq
  | succ f ih =>
    intro s q hne hqp hq
    cases s with
    | nil => exact hq
    | cons c cs =>
      by_cases hpre : pat.isPrefixOf (c :: cs)
      · rw [show replaceFuel pat n (f + 1) (c :: cs) =
              n ++ replaceFuel pat n f ((c :: cs).drop pat.length) from by
            simp [replaceFuel, hpre]] at hq
        rcases le_or_lt q.length n.length with hle | hlt
        · have hqn : q <+: n := List.prefix_of_prefix_length_le hq (List.prefix_append n _) hle
          have hq1 : 1 ≤ q.length := by
            cases q with
            | nil => exact absurd rfl hne
            | cons d q' => simp [List.length_cons]
          have hk : q.length - 1 < n.length := by omega
          have hcond := hf.2.2.1 (q.length - 1) hk
          rw [show q.length - 1 + 1 = q.length from by omega] at hcond
          have hqe : q = n.take q.length := List.prefix_iff_eq_take.mp hqn
          exact absurd (hqe ▸ hqp) hcond
        · have hnq : n <+: q :=
            List.prefix_of_prefix_length_le (List.prefix_append n _) hq (Nat.le_of_lt hlt)
          exact absurd ((inf_of_pre hnq).trans (inf_of_suf hqp)) hf.1
      · rw [show replaceFuel pat n (f + 1) (c :: cs) =
              c :: replaceFuel pat n f cs from by simp [replaceFuel, hpre]] at hq
        cases q with
        | nil => exact absurd rfl hne
        | cons d q' =>
          obtain ⟨hd, hq'⟩ := List.cons_prefix_cons.mp hq
          subst hd
          by_cases h0 : q' = []
          · subst h0
            exact List.cons_prefix_cons.mpr ⟨rfl, List.nil_prefix⟩
          · have hq'p : q' <:+ p := (List.suffix_cons d q').trans hqp
            exact List.cons_prefix_cons.mpr ⟨rfl, ih cs q' h0 hq'p hq'⟩

theorem replaceFuel_fresh (p pat n : List Char) (hf : FreshFor p n) (hp : p ≠ []) :
    ∀ (fuel : Nat) (s : List Char), ¬ p <:+: s → ¬ p <:+: replaceFuel pat n fuel s := by
  intro fuel
  induction fuel with
  | zero => intro s hs; exact hs
  | succ f ih =>
    intro s hins
    cases s with
    | nil => exact hins
    | cons c cs =>
      by_cases hpre : pat.isPrefixOf (c :: cs)
      · rw [show replaceFuel pat n (f + 1) (c :: cs) =
              n ++ replaceFuel pat n f ((c :: cs).drop pat.length) from by
            simp [replaceFuel, hpre]]
        intro hinf
        have hdropinf : ¬ p <:+: (c :: cs).drop pat.length :=
          fun h => hins (h.trans (inf_of_suf (List.drop_suffix pat.length (c :: cs))))
        have hR : ¬ p <:+: replaceFuel pat n f ((c :: cs).drop pat.length) := ih _ hdropinf
        obtain ⟨u, v, huv⟩ := hinf
        rw [List.append_assoc] at huv
        rcases List.append_eq_append_iff.mp huv with ⟨w, hn, hb⟩ | ⟨w, _, hd⟩
        · rcases List.append_eq_append_iff.mp hb with ⟨z, hw, _⟩ | ⟨z, hpz, hR'⟩
          · have hwsuf : w <:+ n := ⟨u, hn.symm⟩
            have hpw : p <+: w := ⟨z, hw.symm⟩
            exact absurd ((inf_of_pre hpw).trans (inf_of_suf hwsuf)) hf.2.1
          · by_cases hw0 : w = []
            · have hpz2 : p = z := by simpa [hw0] using hpz
              refine hR (inf_of_pre ⟨v, ?_⟩)
              rw [hpz2]
              exact hR'.symm
            · have hwsuf : w <:+ n := ⟨u, hn.symm⟩
              have hwp : w <+: p := ⟨z, hpz.symm⟩
              have hw1 : 1 ≤ w.length := by
                cases w with
                | nil => exact absurd rfl hw0
                | cons e w' => simp [List.length_cons]
              have hwlen : w.length ≤ n.length := hwsuf.length_le
              have hk : n.length - w.length < n.length := by omega
              have hcond := hf.2.2.2 (n.length - w.length) hk
              have hwe : w = n.drop (n.length - w.length) := List.suffix_iff_eq_drop.mp hwsuf
              exact absurd (hwe ▸ hwp) hcond
        · exact hR ⟨w, v, by rw [List.append_assoc]; exact hd.symm⟩
      · rw [show replaceFuel pat n (f + 1) (c :: cs) =
              c :: replaceFuel pat n f cs from by simp [replaceFuel, hpre]]
        intro hinf
        have hinc : ¬ p <:+: cs := fun h => hins (h.trans (inf_of_suf (List.suffix_cons c cs)))
        rcases List.infix_cons_iff.mp hinf with hpre' | hinf'
        · cases p with
          | nil => exact hp rfl
          | cons d p' =>
            obtain ⟨hd, hp'⟩ := List.cons_prefix_cons.mp hpre'
            subst hd
            by_cases h0 : p' = []
            · subst h0
              exact hins (inf_of_pre (List.cons_prefix_cons.mpr ⟨rfl, List.nil_prefix⟩))
            · have hp'suf : p' <:+ (d :: p') := List.suffix_cons d p'
              have hrec := replaceFuel_pre_inv (d :: p') pat n hf f cs p' h0 hp'suf hp'
              exact hins (inf_of_pre (List.cons_prefix_cons.mpr ⟨rfl, hrec⟩))
        · exact ih cs hinc hinf'

theorem replaceL_fresh (p pat n : List Char) (hf : FreshFor p n) (hp : p ≠ [])
    (s : List Char) (hs : ¬ p <:+: s) : ¬ p <:+: replaceL pat n s :=
  replaceFuel_fresh p pat n hf hp s.length s hs

theorem substPath_fresh (p : List Char) (hkv : FreshFor p kvNew) (hauth : FreshFor p authNew)
    (hp : p ≠ []) (line : List Char) (h : ¬ p <:+: line) : ¬ p <:+: substPath line := by
  unfold substPath
  apply replaceL_fresh p authOld authNew hauth hp
  exact replaceL_fresh p kvOld kvNew hkv hp line h

/-! ## Claims -/

/-- Claim C1 is false as stated: in `nestedTriggerInput` the line at position 3
contains the HTTP-binding-option trigger substring, yet position 4 is kept and
the line at position 4 appears in the LineFilter output, because the trigger at
position 3 is itself consumed by the active skip block of the trigger at
position 0 and therefore never starts a block of its own. -/
theorem c1_counterexample :
    httpMark <:+: (nestedTriggerInput.getD 3 []) ∧
    4 ∈ keptIdx nestedTriggerInput ∧
    (nestedTriggerInput.getD 4 []) ∈ lineFilter nestedTriggerInput := by
  refine ⟨by decide, by decide, by decide⟩

/-- Claim C1 (amended): for every line at position `i` that is processed with
skip counter 0 and actually triggers the HTTP-option block (it contains the
trigger substring and neither drop marker), none of the positions
`i`, `i+1`, `i+2`, `i+3` is kept, with no error when fewer than 3 lines remain;
and the LineFilter output is exactly the kept positions mapped through the
path substitution. -/
theorem c1_block_deletion (lines : List (List Char)) (i j : Nat)
    (hi : i < lines.length)
    (hsk : skipBefore lines i = 0)
    (hg : ¬ gogoMark <:+: lines.getD i [])
    (ha : ¬ annoMark <:+: lines.getD i [])
    (ht : httpMark <:+: lines.getD i [])
    (hij : i ≤ j) (hji : j ≤ i + 3) :
    j ∉ keptIdx lines ∧
    lineFilter lines = (keptIdx lines).map (fun k => substPath (lines.getD k [])) := by
  refine ⟨?_, lineFilter_eq_map lines⟩
  intro hj
  have hlen : (lines.take i).length = i := by
    rw [List.length_take]
    omega
  have hgetd : lines.getD i [] = lines[i] := List.getD_eq_getElem lines [] hi
  have hdrop : lines.drop i = lines.getD i [] :: lines.drop (i + 1) := by
    rw [hgetd]
    exact List.drop_eq_getElem_cons hi
  have hsk' : skipAfter 0 (lines.take i) = 0 := hsk
  have h2 : keptIdx lines =
      keptIdxAux 0 0 (lines.take i) ++ keptIdxAux i 0 (lines.drop i) := by
    unfold keptIdx
    conv_lhs => rw [(List.take_append_drop i lines).symm]
    rw [keptIdxAux_append, hlen, hsk', Nat.zero_add]
  rw [h2] at hj
  rcases List.mem_append.mp hj with hl | hr
  · have := keptIdxAux_lt (lines.take i) 0 0 j hl
    omega
  · rw [hdrop, keptIdxAux_cons] at hr
    have hk : ¬ keepLine 0 (lines.getD i []) := fun hkeep => hkeep.2.2.2 ht
    have hstep : stepSkip 0 (lines.getD i []) = 3 := by
      unfold stepSkip
      rw [if_neg (show ¬ (0 : Int) < 0 by omega), if_neg hg, if_neg ha, if_pos ht]
    rw [if_neg hk, hstep, List.nil_append] at hr
    have := keptIdxAux_skip_le (lines.drop (i + 1)) (i + 1) 3 (by omega) j hr
    omega

/-- Witness for the amended claim C1 at a concrete block-deletion scenario. -/
theorem c1_block_deletion_witness :
    2 ∉ keptIdx blockInput ∧
    lineFilter blockInput = (keptIdx blockInput).map (fun k => substPath (blockInput.getD k [])) :=
  c1_block_deletion blockInput 0 2 (by decide) (by decide) (by decide) (by decide) (by decide)
    (by decide) (by decide)

/-- Claim C2: no line of the LineFilter output contains the gogoproto marker,
and none contains the google api annotation-import marker: dropped lines are
never emitted, and the two path substitutions can never manufacture a new
occurrence of either marker on a kept line. -/
theorem c2_marker_exclusion (lines : List (List Char)) (l : List Char)
    (h : l ∈ lineFilter lines) :
    ¬ gogoMark <:+: l ∧ ¬ annoMark <:+: l := by
  obtain ⟨o, _, hg, ha, he⟩ := lineFilter_mem lines 0 l h
  subst he
  exact ⟨substPath_fresh gogoMark (by decide) (by decide) (by decide) o hg,
    substPath_fresh annoMark (by decide) (by decide) (by decide) o ha⟩

/-- Witness for claim C2 on a concrete one-line input. -/
theorem c2_marker_exclusion_witness :
    "message KeyValue".toList ∈ lineFilter ["message KeyValue".toList] ∧
    ¬ gogoMark <:+: "message KeyValue".toList ∧
    ¬ annoMark <:+: "message KeyValue".toList :=
  ⟨by decide, c2_marker_exclusion ["message KeyValue".toList] "message KeyValue".toList (by decide)⟩

/-- Claim C3: a line consumed with skip counter 0 that matches none of the
three markers is emitted as exactly `substPath line`; a line containing
neither old path string is emitted unchanged; and the concrete kv import line
is rewritten to the bare filename import. -/
theorem c3_substitution_exact (line alt : List Char) (rest : List (List Char))
    (h1 : ¬ gogoMark <:+: line) (h2 : ¬ annoMark <:+: line) (h3 : ¬ httpMark <:+: line)
    (h4 : ¬ kvOld <:+: alt) (h5 : ¬ authOld <:+: alt) :
    lineFilterAux 0 (line :: rest) = substPath line :: lineFilterAux 0 rest ∧
    substPath alt = alt ∧
    lineFilter [impKvIn] = [impKvOut] := by
  refine ⟨?_, substPath_id alt h4 h5, by decide⟩
  rw [lineFilterAux_cons]
  have hk : keepLine 0 line := ⟨by omega, h1, h2, h3⟩
  have hstep : stepSkip 0 line = 0 := by
    simp [stepSkip, h1, h2, h3]
  rw [if_pos hk, hstep]
  rfl

/-- Witness for claim C3 on the concrete kv import line. -/
theorem c3_substitution_exact_witness :
    lineFilterAux 0 [impKvIn] = substPath impKvIn :: lineFilterAux 0 [] ∧
    substPath "service KV".toList = "service KV".toList ∧
    lineFilter [impKvIn] = [impKvOut] :=
  c3_substitution_exact impKvIn "service KV".toList [] (by decide) (by decide) (by decide)
    (by decide) (by decide)

/-- Claim C4 is false as stated: the sequence `[kvOld]` is itself the output of
the substitution step (on `[overlapLine]`), because replacing the single
occurrence of the old kv path in `overlapLine` leaves behind a fresh
occurrence of that path; running the substitution step again changes it. -/
theorem c4_counterexample :
    [overlapLine].map substPath = [kvOld] ∧ [kvOld].map substPath ≠ [kvOld] := by
  refine ⟨by decide, by decide⟩

/-- Claim C4 (amended): the substitution step is the identity on every line
sequence that contains no occurrence of either old path marker, so re-running
it on such an already-clean sequence is byte-identical. -/
theorem c4_subst_idempotent (lines : List (List Char))
    (h : ∀ l ∈ lines, ¬ kvOld <:+: l ∧ ¬ authOld <:+: l) :
    lines.map substPath = lines := by
  induction lines with
  | nil => rfl
  | cons x xs ih =>
    have hx := h x (List.mem_cons_self x xs)
    rw [List.map_cons, substPath_id x hx.1 hx.2,
      ih (fun l hl => h l (List.mem_cons_of_mem x hl))]

/-- Witness for the amended claim C4 on a concrete clean sequence. -/
theorem c4_subst_idempotent_witness :
    [impKvOut, "service KV".toList].map substPath = [impKvOut, "service KV".toList] :=
  c4_subst_idempotent [impKvOut, "service KV".toList] (by decide)

/-- Claim C5: when the generator exits non-zero, the pipeline echoes both
captured streams, terminates with that same exit code, prints no artifact
warning and leaves both generated files untouched (no import patching). -/
theorem c5_generator_failure (env : Env)
    (h1 : env.grpcToolsAvailable = true) (h2 : env.protocExitCode ≠ 0) :
    (runMain env).exitCode = env.protocExitCode ∧
    (runMain env).protocStdoutEchoed = true ∧
    (runMain env).protocStderrEchoed = true ∧
    (runMain env).rpcPb2Lines = env.rpcPb2Lines ∧
    (runMain env).rpcPb2GrpcLines = env.rpcPb2GrpcLines ∧
    (runMain env).rpcPb2Warned = false ∧
    (runMain env).rpcPb2GrpcWarned = false := by
  unfold runMain
  rw [h1, if_pos rfl, if_pos h2]
  exact ⟨rfl, rfl, rfl, rfl, rfl, rfl, rfl⟩

/-- Witness for claim C5: a generator exit code of 1 yields pipeline exit
code 1 with both streams echoed and no file patched. -/
theorem c5_generator_failure_witness :
    (runMain envGenFail).exitCode = envGenFail.protocExitCode ∧
    (runMain envGenFail).protocStdoutEchoed = true ∧
    (runMain envGenFail).protocStderrEchoed = true ∧
    (runMain envGenFail).rpcPb2Lines = envGenFail.rpcPb2Lines ∧
    (runMain envGenFail).rpcPb2GrpcLines = envGenFail.rpcPb2GrpcLines ∧
    (runMain envGenFail).rpcPb2Warned = false ∧
    (runMain envGenFail).rpcPb2GrpcWarned = false :=
  c5_generator_failure envGenFail rfl (by decide)

/-- Claim C6: when the service-stub file is absent after a successful
generator run, a warning is recorded for it and it is not patched, the main
generated file is still patched when present, and the pipeline exits 0. -/
theorem c6_missing_artifact (env : Env)
    (h1 : env.grpcToolsAvailable = true) (h2 : env.protocExitCode = 0)
    (h3 : env.rpcPb2GrpcExists = false) :
    (runMain env).rpcPb2GrpcWarned = true ∧
    (runMain env).rpcPb2GrpcLines = env.rpcPb2GrpcLines ∧
    (runMain env).rpcPb2Lines =
      (if env.rpcPb2Exists then patchRpcPb2 env.rpcPb2Lines else env.rpcPb2Lines) ∧
    (runMain env).exitCode = 0 := by
  unfold runMain
  rw [h1, if_pos rfl, if_neg (by rw [h2]; exact fun h => h rfl)]
  refine ⟨by simp [h3], by simp [h3], rfl, rfl⟩

/-- Witness for claim C6 on a concrete environment with an absent stub file. -/
theorem c6_missing_artifact_witness :
    (runMain envNoStub).rpcPb2GrpcWarned = true ∧
    (runMain envNoStub).rpcPb2GrpcLines = envNoStub.rpcPb2GrpcLines ∧
    (runMain envNoStub).rpcPb2Lines =
      (if envNoStub.rpcPb2Exists then patchRpcPb2 envNoStub.rpcPb2Lines
        else envNoStub.rpcPb2Lines) ∧
    (runMain envNoStub).exitCode = 0 :=
  c6_missing_artifact envNoStub rfl rfl rfl

/-- Claim C7: the generated-file import substitution is anchored to line
start: a line beginning with the bare auth import is rewritten to the
qualified import with the rest of the line preserved; a line merely containing
that substring elsewhere is unmodified; and the whole patch pass preserves the
number and order of lines and leaves every non-matching line unchanged. -/
theorem c7_anchored_imports (tail line : List Char) (lines : List (List Char)) (i : Nat)
    (_h1 : importAuthPat <:+: line) (h2 : ¬ importAuthPat <+: line)
    (h3 : ¬ importAuthPat <+: lines.getD i []) (h4 : ¬ importKvPat <+: lines.getD i []) :
    sedLine importAuthPat fromAuthRepl (importAuthPat ++ tail) = fromAuthRepl ++ tail ∧
    sedLine importAuthPat fromAuthRepl line = line ∧
    (patchRpcPb2 lines).length = lines.length ∧
    (patchRpcPb2 lines).getD i [] = lines.getD i [] := by
  refine ⟨?_, ?_, ?_, ?_⟩
  · unfold sedLine
    rw [if_pos ((pre_bool_iff _ _).mpr (List.prefix_append importAuthPat tail)), List.drop_left]
  · unfold sedLine
    rw [if_neg (fun hb => h2 ((pre_bool_iff _ _).mp hb))]
  · unfold patchRpcPb2
    rw [List.length_map, List.length_map]
  · unfold patchRpcPb2
    rcases Nat.lt_or_ge i lines.length with hlt | hge
    · have hlt2 : i < ((lines.map (sedLine importAuthPat fromAuthRepl)).map
          (sedLine importKvPat fromKvRepl)).length := by
        rw [List.length_map, List.length_map]
        exact hlt
      rw [List.getD_eq_getElem _ _ hlt2, List.getD_eq_getElem _ _ hlt,
        List.getElem_map, List.getElem_map]
      have hx : lines[i] = lines.getD i [] := (List.getD_eq_getElem lines [] hlt).symm
      rw [hx]
      unfold sedLine
      rw [if_neg (fun hb => h3 ((pre_bool_iff _ _).mp hb)),
        if_neg (fun hb => h4 ((pre_bool_iff _ _).mp hb))]
    · have hge2 : ((lines.map (sedLine importAuthPat fromAuthRepl)).map
          (sedLine importKvPat fromKvRepl)).length ≤ i := by
        rw [List.length_map, List.length_map]
        exact hge
      rw [List.getD_eq_default _ _ hge2, List.getD_eq_default _ _ hge]

/-- Witness for claim C7: the bare auth import line is rewritten, a mid-line
occurrence is untouched. -/
theorem c7_anchored_imports_witness :
    sedLine importAuthPat fromAuthRepl (importAuthPat ++ "\n".toList) =
      fromAuthRepl ++ "\n".toList ∧
    sedLine importAuthPat fromAuthRepl "x = \"import auth_pb2\"".toList =
      "x = \"import auth_pb2\"".toList ∧
    (patchRpcPb2 ["y = 2".toList]).length = ["y = 2".toList].length ∧
    (patchRpcPb2 ["y = 2".toList]).getD 0 [] = ["y = 2".toList].getD 0 [] :=
  c7_anchored_imports "\n".toList "x = \"import auth_pb2\"".toList ["y = 2".toList] 0
    (by decide) (by decide) (by decide) (by decide)

/-- Claim C8 is false in its distinctness part: the missing-toolchain exit
status is 1, but a generator failure with exit code 1 makes the pipeline exit
with the very same status 1, so 1 is not distinct from the generator-failure
exit status. -/
theorem c8_counterexample :
    (runMain envNoTool).exitCode = 1 ∧
    envGenFail.grpcToolsAvailable = true ∧
    envGenFail.protocExitCode = 1 ∧
    (runMain envGenFail).exitCode = 1 := by
  refine ⟨by decide, rfl, rfl, by decide⟩

/-- Claim C8 (amended): when the generator toolchain cannot be imported, the
pipeline prints the corrective instruction, terminates with exit status 1,
and mutates no file (the schema file is not rewritten and neither generated
file is patched); the status may coincide with a generator-failure status
when the generator itself returns 1. -/
theorem c8_setup_failure (env : Env) (h : env.grpcToolsAvailable = false) :
    (runMain env).exitCode = 1 ∧
    (runMain env).installMsgPrinted = true ∧
    (runMain env).rpcProtoWritten = false ∧
    (runMain env).rpcProtoLines = env.rpcProtoLines ∧
    (runMain env).rpcPb2Lines = env.rpcPb2Lines ∧
    (runMain env).rpcPb2GrpcLines = env.rpcPb2GrpcLines := by
  unfold runMain
  rw [h]
  exact ⟨rfl, rfl, rfl, rfl, rfl, rfl⟩

/-- Witness for the amended claim C8 on a concrete toolchain-less environment. -/
theorem c8_setup_failure_witness :
    (runMain envNoTool).exitCode = 1 ∧
    (runMain envNoTool).installMsgPrinted = true ∧
    (runMain envNoTool).rpcProtoWritten = false ∧
    (runMain envNoTool).rpcProtoLines = envNoTool.rpcProtoLines ∧
    (runMain envNoTool).rpcPb2Lines = envNoTool.rpcPb2Lines ∧
    (runMain envNoTool).rpcPb2GrpcLines = envNoTool.rpcPb2GrpcLines :=
  c8_setup_failure envNoTool rfl

/-- Claim C9: the skip counter is never negative at any point of a pass
started at 0; while positive it is decremented exactly once per consumed
line; at zero it stays zero unless a trigger line (containing the HTTP-option
substring and neither drop marker) sets it to 3; and one loop step of the
filter follows exactly this transition. -/
theorem c9_skip_invariant (lines rest : List (List Char)) (i k : Nat)
    (line line2 line3 : List Char) (sk : Int) :
    0 ≤ skipBefore lines i ∧
    stepSkip ((k : Int) + 1) line = (k : Int) ∧
    stepSkip 0 line2 =
      (if ¬ gogoMark <:+: line2 ∧ ¬ annoMark <:+: line2 ∧ httpMark <:+: line2
        then 3 else 0) ∧
    lineFilterAux sk (line3 :: rest) =
      (if keepLine sk line3 then [substPath line3] else []) ++
        lineFilterAux (stepSkip sk line3) rest := by
  refine ⟨skipAfter_nonneg _ 0 le_rfl, ?_, ?_, lineFilterAux_cons sk line3 rest⟩
  · unfold stepSkip
    rw [if_pos (show (0 : Int) < (k : Int) + 1 by omega)]
    omega
  · unfold stepSkip
    rw [if_neg (show ¬ (0 : Int) < 0 by omega)]
    by_cases hg : gogoMark <:+: line2 <;> by_cases ha : annoMark <:+: line2 <;>
      by_cases hh : httpMark <:+: line2 <;> simp [hg, ha, hh]

/-- Claim C10: a line consumed while the skip counter is positive is consumed
as an ordinary skipped line whatever its content, so a trigger inside an
active block does not start a new block; consequently after a full block
headed by a trigger line the remaining lines are filtered normally even when
the block interior contains another trigger line. -/
theorem c10_no_stacking (k : Nat) (line t x y t2 : List Char)
    (rest rest2 : List (List Char))
    (h1 : httpMark <:+: t) (h2 : ¬ gogoMark <:+: t) (h3 : ¬ annoMark <:+: t) :
    lineFilterAux ((k : Int) + 1) (line :: rest2) = lineFilterAux (k : Int) rest2 ∧
    lineFilter (t :: x :: y :: t2 :: rest) = lineFilter rest := by
  have hcons : ∀ (s : Int) (l : List Char) (r : List (List Char)), 0 < s →
      lineFilterAux s (l :: r) = lineFilterAux (s - 1) r := by
    intro s l r hs
    rw [lineFilterAux_cons]
    have hk : ¬ keepLine s l := fun hkeep => hkeep.1 hs
    have hstep : stepSkip s l = s - 1 := by
      unfold stepSkip
      rw [if_pos hs]
    rw [if_neg hk, hstep, List.nil_append]
  constructor
  · rw [hcons ((k : Int) + 1) line rest2 (by omega)]
    norm_num
  · unfold lineFilter
    rw [lineFilterAux_cons]
    have hk0 : ¬ keepLine 0 t := fun hkeep => hkeep.2.2.2 h1
    have hs0 : stepSkip 0 t = 3 := by
      unfold stepSkip
      rw [if_neg (show ¬ (0 : Int) < 0 by omega), if_neg h2, if_neg h3, if_pos h1]
    rw [if_neg hk0, hs0, List.nil_append]
    rw [hcons 3 x (y :: t2 :: rest) (by omega)]
    norm_num
    rw [hcons 2 y (t2 :: rest) (by omega)]
    norm_num
    rw [hcons 1 t2 rest (by omega)]
    norm_num

/-- Witness for claim C10 on a concrete nested-trigger block. -/
theorem c10_no_stacking_witness :
    lineFilterAux (((0 : Nat) : Int) + 1) [httpLine] = lineFilterAux ((0 : Nat) : Int) [] ∧
    lineFilter (httpLine :: "a".toList :: "b".toList :: httpLine :: ["rpc Range".toList]) =
      lineFilter ["rpc Range".toList] :=
  c10_no_stacking 0 httpLine httpLine "a".toList "b".toList httpLine ["rpc Range".toList] []
    (by decide) (by decide) (by decide)
